import Mathlib

set_option autoImplicit false

/-!
Shallow embedding of the indicator-computation core of `src/app.py`
(`load_and_process_data`, lines 36-103).

The input series is a list of daily bars (date, OHLCV); numeric cells are
modelled as exact rationals (the idealisation of double-precision
arithmetic), a cell being `none` where pandas produces a missing value
from insufficient window history.  The RSI computation runs through IEEE
special values (`inf`, `nan`) produced by the division `avg_gain /
avg_loss`, so its cells are modelled by an extended-value type `Xfloat`
mirroring IEEE semantics on exact rationals.
-/

namespace StockViewer

/-- One daily bar of the fetched series (`df` rows, `yf.download` output).
Dates are modelled as integers, strictly increasing along the series. -/
structure Bar where
  date : Int
  open_ : ℚ
  high : ℚ
  low : ℚ
  close : ℚ
  volume : ℚ
  deriving Repr, DecidableEq, Inhabited

/-- Window of the last `w` values ending at index `i` (pandas rolling window
contents at row `i`): values at indices `i+1-w .. i`. -/
def windowSlice (w i : ℕ) (xs : List ℚ) : List ℚ :=
  (xs.drop (i + 1 - w)).take w

/-- Embedding of `Series.rolling(window=w).mean()` (pandas, default `min_periods = w`):
entry `i` is the mean of the `w` values ending at `i`, missing for `i < w-1`.
Embeds `df.Close.rolling(window=5).mean()` etc. (lines 58-61, 64). -/
def rollingMean (w : ℕ) (xs : List ℚ) : List (Option ℚ) :=
  (List.range xs.length).map fun i =>
    if w ≤ i + 1 then some ((windowSlice w i xs).sum / w) else none

theorem rollingMean_length (w : ℕ) (xs : List ℚ) :
    (rollingMean w xs).length = xs.length := by
  simp [rollingMean]

/-- Entry lemma for a `(List.range n).map f` column. -/
theorem range_map_getD {α : Type} (n : ℕ) (f : ℕ → α) (i : ℕ) (d : α)
    (h : i < n) : (((List.range n).map f).getD i d) = f i := by
  rw [List.getD_eq_getElem?_getD]
  rw [List.getElem?_map]
  rw [List.getElem?_range h]
  rfl

theorem rollingMean_getD (w : ℕ) (xs : List ℚ) (i : ℕ) (h : i < xs.length) :
    (rollingMean w xs).getD i none
      = if w ≤ i + 1 then some ((windowSlice w i xs).sum / w) else none := by
  unfold rollingMean
  exact range_map_getD xs.length _ i none h

/-- The window slice, written without `take`/`drop`: the values at indices
`i+1-w + j` for `j < w`. -/
theorem windowSlice_eq_map_range (w i : ℕ) (xs : List ℚ)
    (h : i + 1 ≤ xs.length) (hw : w ≤ i + 1) :
    windowSlice w i xs = (List.range w).map fun j => xs.getD (i + 1 - w + j) 0 := by
  unfold windowSlice
  apply List.ext_getElem?
  intro j
  rcases lt_or_le j w with hj | hj
  · have hidx : i + 1 - w + j < xs.length := by omega
    rw [List.getElem?_take_of_lt hj]
    rw [List.getElem?_drop]
    rw [List.getElem?_map, List.getElem?_range hj]
    rw [List.getElem?_eq_getElem hidx]
    simp [List.getD_eq_getElem?_getD, List.getElem?_eq_getElem hidx]
  · rw [List.getElem?_take_eq_none hj]
    rw [Eq.comm, List.getElem?_eq_none]
    simp [hj]

/-- Close-price column of the fetched series (`df.Close`). -/
def closes (bars : List Bar) : List ℚ := bars.map Bar.close

/-- Volume column of the fetched series (`df.Volume`). -/
def volumes (bars : List Bar) : List ℚ := bars.map Bar.volume

/-- High column (`df.High`). -/
def highs (bars : List Bar) : List ℚ := bars.map Bar.high

/-- Low column (`df.Low`). -/
def lows (bars : List Bar) : List ℚ := bars.map Bar.low

/-- Embedding of `df.MA5 = df.Close.rolling(window=5).mean()` (line 58). -/
def MA5 (bars : List Bar) : List (Option ℚ) := rollingMean 5 (closes bars)

/-- Embedding of `df.MA25 = df.Close.rolling(window=25).mean()` (line 59). -/
def MA25 (bars : List Bar) : List (Option ℚ) := rollingMean 25 (closes bars)

/-- Embedding of `df.MA75 = df.Close.rolling(window=75).mean()` (line 60). -/
def MA75 (bars : List Bar) : List (Option ℚ) := rollingMean 75 (closes bars)

/-- Embedding of `df.Volume_MA20 = df.Volume.rolling(window=20).mean()` (line 61). -/
def Volume_MA20 (bars : List Bar) : List (Option ℚ) := rollingMean 20 (volumes bars)

/-- A rolling-mean entry at a valid index: defined exactly from index `w-1`
on, and there equal to the arithmetic mean of the `w` values at indices
`i+1-w, …, i`. -/
theorem rollingMean_spec (w : ℕ) (xs : List ℚ) (i : ℕ) (h : i < xs.length) :
    (rollingMean w xs).getD i none
      = if w - 1 ≤ i then
          some ((((List.range w).map fun j => xs.getD (i + 1 - w + j) 0).sum) / w)
        else none := by
  rw [rollingMean_getD w xs i h]
  rcases le_or_lt w (i + 1) with hw | hw
  · rw [if_pos hw, if_pos (by omega)]
    rw [windowSlice_eq_map_range w i xs (by omega) hw]
  · rw [if_neg (by omega), if_neg (by omega)]

end StockViewer

namespace StockViewer

/-- A concrete five-bar series used by several witnesses. -/
def bar5 (n : ℕ) : Bar :=
  { date := n, open_ := n + 1, high := n + 2, low := n, close := n + 1, volume := 10 * n }

/-- A flat bar with one given close, used by witnesses whose hypotheses
involve rational arithmetic. -/
def wbar (d : Int) (c : ℚ) : Bar :=
  { date := d, open_ := c, high := c, low := c, close := c, volume := c }

/-- Element-wise combination of two nullable columns (pandas arithmetic on
two series: missing wherever either operand is missing). -/
def omap2 {α β γ : Type} (f : α → β → γ) : Option α → Option β → Option γ
  | some a, some b => some (f a b)
  | _, _ => none

theorem getD_map {α β : Type} (g : α → β) (xs : List α) (i : ℕ) (d : α)
    (h : i < xs.length) : (xs.map g).getD i (g d) = g (xs.getD i d) := by
  rw [List.getD_eq_getElem?_getD, List.getD_eq_getElem?_getD]
  rw [List.getElem?_map]
  rw [List.getElem?_eq_getElem h]
  rfl

theorem getD_zipWith {α β γ : Type} (f : α → β → γ) (as : List α) (bs : List β)
    (i : ℕ) (da : α) (db : β) (ha : i < as.length) (hb : i < bs.length) :
    (List.zipWith f as bs).getD i (f da db) = f (as.getD i da) (bs.getD i db) := by
  rw [List.getD_eq_getElem?_getD, List.getD_eq_getElem?_getD, List.getD_eq_getElem?_getD]
  rw [List.getElem?_zipWith]
  rw [List.getElem?_eq_getElem ha, List.getElem?_eq_getElem hb]
  rfl

/-- Sample variance (pandas `ddof = 1`) over the rolling 20-value windows:
the squared-deviation sum divided by `w - 1`.  `Series.rolling(w).std()`
is the square root of this. -/
def rollingVar (w : ℕ) (xs : List ℚ) : List (Option ℚ) :=
  (List.range xs.length).map fun i =>
    if w ≤ i + 1 then
      some ((((windowSlice w i xs).map fun x =>
        (x - (windowSlice w i xs).sum / w) ^ 2).sum) / (((w : ℚ)) - 1))
    else none

theorem rollingVar_length (w : ℕ) (xs : List ℚ) :
    (rollingVar w xs).length = xs.length := by
  simp [rollingVar]

theorem rollingVar_spec (w : ℕ) (xs : List ℚ) (i : ℕ) (h : i < xs.length) :
    (rollingVar w xs).getD i none
      = if w - 1 ≤ i then
          some ((((List.range w).map fun j =>
            (xs.getD (i + 1 - w + j) 0
              - (((List.range w).map fun j => xs.getD (i + 1 - w + j) 0).sum) / w) ^ 2).sum) / (((w : ℚ)) - 1))
        else none := by
  unfold rollingVar
  rw [range_map_getD xs.length _ i none h]
  rcases le_or_lt w (i + 1) with hw | hw
  · rw [if_pos hw, if_pos (by omega)]
    rw [windowSlice_eq_map_range w i xs (by omega) hw]
    rw [List.map_map]
    rfl
  · rw [if_neg (by omega), if_neg (by omega)]

/-- Embedding of `df.BB_MA20 = df.Close.rolling(window=20).mean()` (line 64). -/
def BB_MA20 (bars : List Bar) : List (Option ℚ) := rollingMean 20 (closes bars)

/-- Embedding of `df.BB_Std = df.Close.rolling(window=20).std()` (line 65): square
root of the rolling sample variance. -/
noncomputable def BB_Std (bars : List Bar) : List (Option ℝ) :=
  (rollingVar 20 (closes bars)).map (Option.map fun v : ℚ => Real.sqrt (v : ℝ))

/-- Embedding of `df.BB_Upper = df.BB_MA20 + 2 * df.BB_Std` (line 66). -/
noncomputable def BB_Upper (bars : List Bar) : List (Option ℝ) :=
  List.zipWith (omap2 fun (m : ℚ) (s : ℝ) => (m : ℝ) + 2 * s) (BB_MA20 bars) (BB_Std bars)

/-- Embedding of `df.BB_Lower = df.BB_MA20 - 2 * df.BB_Std` (line 67). -/
noncomputable def BB_Lower (bars : List Bar) : List (Option ℝ) :=
  List.zipWith (omap2 fun (m : ℚ) (s : ℝ) => (m : ℝ) - 2 * s) (BB_MA20 bars) (BB_Std bars)

theorem BB_MA20_length (bars : List Bar) : (BB_MA20 bars).length = bars.length := by
  simp [BB_MA20, rollingMean_length, closes]

theorem BB_Std_length (bars : List Bar) : (BB_Std bars).length = bars.length := by
  simp [BB_Std, rollingVar_length, closes]

/-- Joint description of the four Bollinger entries at a valid index. -/
theorem bollinger_entries (bars : List Bar) (i : ℕ) (h : i < bars.length) :
    ((¬ 19 ≤ i) → (BB_MA20 bars).getD i none = none
        ∧ (BB_Std bars).getD i none = none
        ∧ (BB_Upper bars).getD i none = none
        ∧ (BB_Lower bars).getD i none = none)
  ∧ (19 ≤ i → ∃ m v, (BB_MA20 bars).getD i none = some m
        ∧ (rollingVar 20 (closes bars)).getD i none = some v
        ∧ (BB_Std bars).getD i none = some (Real.sqrt (v : ℝ))
        ∧ (BB_Upper bars).getD i none = some ((m : ℝ) + 2 * Real.sqrt (v : ℝ))
        ∧ (BB_Lower bars).getD i none = some ((m : ℝ) - 2 * Real.sqrt (v : ℝ))) := by
  have hc : i < (closes bars).length := by simpa [closes] using h
  have hma : (BB_MA20 bars).getD i none
      = if 19 ≤ i then some ((windowSlice 20 i (closes bars)).sum / 20) else none := by
    rw [BB_MA20, rollingMean_getD 20 (closes bars) i hc]
    simp only [show (20 ≤ i + 1) ↔ 19 ≤ i from by omega, Nat.cast_ofNat]
  have hvar : i < (rollingVar 20 (closes bars)).length := by
    rw [rollingVar_length]; exact hc
  have hstd : (BB_Std bars).getD i none
      = Option.map (fun v : ℚ => Real.sqrt (v : ℝ)) ((rollingVar 20 (closes bars)).getD i none) := by
    rw [BB_Std]
    have := getD_map (Option.map fun v : ℚ => Real.sqrt (v : ℝ))
      (rollingVar 20 (closes bars)) i none hvar
    simpa using this
  have hvarentry : (rollingVar 20 (closes bars)).getD i none
      = if 19 ≤ i then
          some ((((windowSlice 20 i (closes bars)).map fun x =>
            (x - (windowSlice 20 i (closes bars)).sum / 20) ^ 2).sum) / 19) else none := by
    unfold rollingVar
    rw [range_map_getD (closes bars).length _ i none hc]
    simp only [show (20 ≤ i + 1) ↔ 19 ≤ i from by omega, Nat.cast_ofNat,
      show ((20 : ℚ) - 1) = 19 from by norm_num]
  have hup : (BB_Upper bars).getD i none
      = omap2 (fun (m : ℚ) (s : ℝ) => (m : ℝ) + 2 * s)
          ((BB_MA20 bars).getD i none) ((BB_Std bars).getD i none) := by
    rw [BB_Upper]
    have := getD_zipWith (omap2 fun (m : ℚ) (s : ℝ) => (m : ℝ) + 2 * s)
      (BB_MA20 bars) (BB_Std bars) i none none
      (by rw [BB_MA20_length]; exact h) (by rw [BB_Std_length]; exact h)
    simpa [omap2] using this
  have hlo : (BB_Lower bars).getD i none
      = omap2 (fun (m : ℚ) (s : ℝ) => (m : ℝ) - 2 * s)
          ((BB_MA20 bars).getD i none) ((BB_Std bars).getD i none) := by
    rw [BB_Lower]
    have := getD_zipWith (omap2 fun (m : ℚ) (s : ℝ) => (m : ℝ) - 2 * s)
      (BB_MA20 bars) (BB_Std bars) i none none
      (by rw [BB_MA20_length]; exact h) (by rw [BB_Std_length]; exact h)
    simpa [omap2] using this
  constructor
  · intro hni
    rw [hup, hlo, hstd, hvarentry, hma]
    simp [hni, omap2]
  · intro hi
    refine ⟨(windowSlice 20 i (closes bars)).sum / 20,
      (((windowSlice 20 i (closes bars)).map fun x =>
        (x - (windowSlice 20 i (closes bars)).sum / 20) ^ 2).sum) / 19, ?_, ?_, ?_, ?_, ?_⟩
    · rw [hma, if_pos hi]
    · rw [hvarentry, if_pos hi]
    · rw [hstd, hvarentry, if_pos hi]
      rfl
    · rw [hup, hma, hstd, hvarentry, if_pos hi, if_pos hi]
      rfl
    · rw [hlo, hma, hstd, hvarentry, if_pos hi, if_pos hi]
      rfl

/-- Maximum of a window (pandas `rolling(w).max()` contents); the `[]`
case is never reached on a full window. -/
def listMax : List ℚ → ℚ
  | [] => 0
  | x :: xs => xs.foldl max x

/-- Minimum of a window (pandas `rolling(w).min()` contents). -/
def listMin : List ℚ → ℚ
  | [] => 0
  | x :: xs => xs.foldl min x

/-- Embedding of `Series.rolling(window=w).max()` (lines 71, 75, 81). -/
def rollingMax (w : ℕ) (xs : List ℚ) : List (Option ℚ) :=
  (List.range xs.length).map fun i =>
    if w ≤ i + 1 then some (listMax (windowSlice w i xs)) else none

/-- Embedding of `Series.rolling(window=w).min()` (lines 72, 76, 82). -/
def rollingMin (w : ℕ) (xs : List ℚ) : List (Option ℚ) :=
  (List.range xs.length).map fun i =>
    if w ≤ i + 1 then some (listMin (windowSlice w i xs)) else none

theorem rollingMax_length (w : ℕ) (xs : List ℚ) :
    (rollingMax w xs).length = xs.length := by
  simp [rollingMax]

theorem rollingMin_length (w : ℕ) (xs : List ℚ) :
    (rollingMin w xs).length = xs.length := by
  simp [rollingMin]

/-- Embedding of `Series.shift(n)` (pandas): entry `i` becomes the unshifted entry
`i - n`, missing for `i < n`; entries shifted past the end are dropped
(the length is unchanged). -/
def shiftF (n : ℕ) (xs : List (Option ℚ)) : List (Option ℚ) :=
  (List.range xs.length).map fun i => if n ≤ i then xs.getD (i - n) none else none

theorem shiftF_length (n : ℕ) (xs : List (Option ℚ)) :
    (shiftF n xs).length = xs.length := by
  simp [shiftF]

theorem shiftF_getD (n : ℕ) (xs : List (Option ℚ)) (i : ℕ) (h : i < xs.length) :
    (shiftF n xs).getD i none
      = if n ≤ i then xs.getD (i - n) none else none := by
  unfold shiftF
  exact range_map_getD xs.length _ i none h

/-- Tenkan-sen: `(high9 + low9) / 2` (lines 71-73). -/
def tenkan (bars : List Bar) : List (Option ℚ) :=
  List.zipWith (omap2 fun a b => (a + b) / 2)
    (rollingMax 9 (highs bars)) (rollingMin 9 (lows bars))

/-- Kijun-sen: `(high26 + low26) / 2` (lines 75-77). -/
def kijun (bars : List Bar) : List (Option ℚ) :=
  List.zipWith (omap2 fun a b => (a + b) / 2)
    (rollingMax 26 (highs bars)) (rollingMin 26 (lows bars))

/-- The unshifted Senkou Span A series `(tenkan + kijun) / 2` (line 79). -/
def spanAraw (bars : List Bar) : List (Option ℚ) :=
  List.zipWith (omap2 fun a b => (a + b) / 2) (tenkan bars) (kijun bars)

/-- Embedding of `df.SpanA = ((tenkan + kijun) / 2).shift(26)` (line 79). -/
def SpanA (bars : List Bar) : List (Option ℚ) := shiftF 26 (spanAraw bars)

/-- The unshifted Senkou Span B series `(high52 + low52) / 2` (lines 81-83). -/
def spanBraw (bars : List Bar) : List (Option ℚ) :=
  List.zipWith (omap2 fun a b => (a + b) / 2)
    (rollingMax 52 (highs bars)) (rollingMin 52 (lows bars))

/-- Embedding of `df.SpanB = ((high52 + low52) / 2).shift(26)` (line 83). -/
def SpanB (bars : List Bar) : List (Option ℚ) := shiftF 26 (spanBraw bars)

theorem highs_length (bars : List Bar) : (highs bars).length = bars.length := by
  simp [highs]

theorem lows_length (bars : List Bar) : (lows bars).length = bars.length := by
  simp [lows]

theorem tenkan_length (bars : List Bar) : (tenkan bars).length = bars.length := by
  simp [tenkan, rollingMax_length, rollingMin_length, highs_length, lows_length]

theorem kijun_length (bars : List Bar) : (kijun bars).length = bars.length := by
  simp [kijun, rollingMax_length, rollingMin_length, highs_length, lows_length]

theorem spanAraw_length (bars : List Bar) : (spanAraw bars).length = bars.length := by
  simp [spanAraw, tenkan_length, kijun_length]

theorem spanBraw_length (bars : List Bar) : (spanBraw bars).length = bars.length := by
  simp [spanBraw, rollingMax_length, rollingMin_length, highs_length, lows_length]

theorem spanAraw_getD (bars : List Bar) (i : ℕ) (h : i < bars.length) :
    (spanAraw bars).getD i none
      = omap2 (fun a b => (a + b) / 2) ((tenkan bars).getD i none) ((kijun bars).getD i none) := by
  rw [spanAraw]
  have := getD_zipWith (omap2 fun a b => (a + b) / 2) (tenkan bars) (kijun bars)
    i none none (by rw [tenkan_length]; exact h) (by rw [kijun_length]; exact h)
  simpa [omap2] using this

theorem spanBraw_getD (bars : List Bar) (i : ℕ) (h : i < bars.length) :
    (spanBraw bars).getD i none
      = omap2 (fun a b => (a + b) / 2)
          ((rollingMax 52 (highs bars)).getD i none)
          ((rollingMin 52 (lows bars)).getD i none) := by
  rw [spanBraw]
  have := getD_zipWith (omap2 fun a b => (a + b) / 2)
    (rollingMax 52 (highs bars)) (rollingMin 52 (lows bars)) i none none
    (by rw [rollingMax_length, highs_length]; exact h)
    (by rw [rollingMin_length, lows_length]; exact h)
  simpa [omap2] using this

/-- C3: the Leading Span columns shift the unshifted series forward by 26
rows.  The value at output index `i+26` is `(tenkan + kijun)/2`
(resp. the 52-bar `(max High + min Low)/2`) evaluated at index `i`; output
indices whose shift-compensated source index falls before the start of the
series are missing, and the shift never extends the table (lengths are
unchanged, so values shifted past the last row are discarded). -/
theorem C3_ichimoku_spans (bars : List Bar) (i k : ℕ)
    (hi : i + 26 < bars.length) (hk : k < 26) (hk2 : k < bars.length) :
    (SpanA bars).length = bars.length
  ∧ (SpanB bars).length = bars.length
  ∧ (SpanA bars).getD (i + 26) none
      = omap2 (fun a b => (a + b) / 2) ((tenkan bars).getD i none) ((kijun bars).getD i none)
  ∧ (SpanB bars).getD (i + 26) none
      = omap2 (fun a b => (a + b) / 2)
          ((rollingMax 52 (highs bars)).getD i none)
          ((rollingMin 52 (lows bars)).getD i none)
  ∧ (SpanA bars).getD k none = none
  ∧ (SpanB bars).getD k none = none := by
  have hlenA : (SpanA bars).length = bars.length := by
    rw [SpanA, shiftF_length, spanAraw_length]
  have hlenB : (SpanB bars).length = bars.length := by
    rw [SpanB, shiftF_length, spanBraw_length]
  have hiA : i + 26 < (spanAraw bars).length := by rw [spanAraw_length]; exact hi
  have hiB : i + 26 < (spanBraw bars).length := by rw [spanBraw_length]; exact hi
  have hkA : k < (spanAraw bars).length := by rw [spanAraw_length]; exact hk2
  have hkB : k < (spanBraw bars).length := by rw [spanBraw_length]; exact hk2
  refine ⟨hlenA, hlenB, ?_, ?_, ?_, ?_⟩
  · rw [SpanA, shiftF_getD 26 (spanAraw bars) (i + 26) hiA]
    rw [if_pos (by omega)]
    rw [show i + 26 - 26 = i by omega]
    exact spanAraw_getD bars i (by omega)
  · rw [SpanB, shiftF_getD 26 (spanBraw bars) (i + 26) hiB]
    rw [if_pos (by omega)]
    rw [show i + 26 - 26 = i by omega]
    exact spanBraw_getD bars i (by omega)
  · rw [SpanA, shiftF_getD 26 (spanAraw bars) k hkA]
    rw [if_neg (by omega)]
  · rw [SpanB, shiftF_getD 26 (spanBraw bars) k hkB]
    rw [if_neg (by omega)]

/-- Witness for C3 at a concrete 60-bar series: index 51 + 26 is out of
range, so use a 80-bar series, source index 25, blank index 5. -/
theorem C3_ichimoku_spans_witness :
    ((25 : ℕ) + 26 < ((List.range 80).map bar5).length
      ∧ (5 : ℕ) < 26 ∧ (5 : ℕ) < ((List.range 80).map bar5).length)
  ∧ ((SpanA ((List.range 80).map bar5)).length = ((List.range 80).map bar5).length
    ∧ (SpanB ((List.range 80).map bar5)).length = ((List.range 80).map bar5).length
    ∧ (SpanA ((List.range 80).map bar5)).getD (25 + 26) none
        = omap2 (fun a b => (a + b) / 2)
            ((tenkan ((List.range 80).map bar5)).getD 25 none)
            ((kijun ((List.range 80).map bar5)).getD 25 none)
    ∧ (SpanB ((List.range 80).map bar5)).getD (25 + 26) none
        = omap2 (fun a b => (a + b) / 2)
            ((rollingMax 52 (highs ((List.range 80).map bar5))).getD 25 none)
            ((rollingMin 52 (lows ((List.range 80).map bar5))).getD 25 none)
    ∧ (SpanA ((List.range 80).map bar5)).getD 5 none = none
    ∧ (SpanB ((List.range 80).map bar5)).getD 5 none = none) := by
  constructor
  · exact ⟨by decide, by decide, by decide⟩
  · exact C3_ichimoku_spans ((List.range 80).map bar5) 25 5
      (by decide) (by decide) (by decide)

theorem BB_Std_getD (bars : List Bar) (i : ℕ) (h : i < bars.length) :
    (BB_Std bars).getD i none
      = Option.map (fun v : ℚ => Real.sqrt (v : ℝ))
          ((rollingVar 20 (closes bars)).getD i none) := by
  have hvar : i < (rollingVar 20 (closes bars)).length := by
    rw [rollingVar_length]
    simpa [closes] using h
  rw [BB_Std]
  have := getD_map (Option.map fun v : ℚ => Real.sqrt (v : ℝ))
    (rollingVar 20 (closes bars)) i none hvar
  simpa using this

/-- C5: wherever the Bollinger columns are defined, `BB_Upper − BB_Lower`
equals exactly four times the 20-bar standard deviation, and
`BB_Upper ≥ BB_MA20 ≥ BB_Lower`. -/
theorem C5_bollinger_band_relations (bars : List Bar) (i : ℕ)
    (h : i < bars.length) (hdef : ((BB_MA20 bars).getD i none).isSome) :
    ∃ m s u lo, (BB_MA20 bars).getD i none = some m
      ∧ (BB_Std bars).getD i none = some s
      ∧ (BB_Upper bars).getD i none = some u
      ∧ (BB_Lower bars).getD i none = some lo
      ∧ u - lo = 4 * s ∧ lo ≤ (m : ℝ) ∧ (m : ℝ) ≤ u := by
  obtain ⟨hblank, hfull⟩ := bollinger_entries bars i h
  by_cases hi : 19 ≤ i
  · obtain ⟨m, v, hm, hv, hs, hu, hl⟩ := hfull hi
    exact ⟨m, Real.sqrt (v : ℝ), (m : ℝ) + 2 * Real.sqrt (v : ℝ),
      (m : ℝ) - 2 * Real.sqrt (v : ℝ), hm, hs, hu, hl, by ring,
      by nlinarith [Real.sqrt_nonneg ((v : ℝ))],
      by nlinarith [Real.sqrt_nonneg ((v : ℝ))]⟩
  · rw [(hblank hi).1] at hdef
    simp at hdef

/-- Witness for C5 at a concrete 20-bar series, row 19. -/
theorem C5_bollinger_band_relations_witness :
    ((19 : ℕ) < ((List.range 20).map bar5).length
      ∧ ((BB_MA20 ((List.range 20).map bar5)).getD 19 none).isSome)
  ∧ ∃ m s u lo, (BB_MA20 ((List.range 20).map bar5)).getD 19 none = some m
      ∧ (BB_Std ((List.range 20).map bar5)).getD 19 none = some s
      ∧ (BB_Upper ((List.range 20).map bar5)).getD 19 none = some u
      ∧ (BB_Lower ((List.range 20).map bar5)).getD 19 none = some lo
      ∧ u - lo = 4 * s ∧ lo ≤ (m : ℝ) ∧ (m : ℝ) ≤ u := by
  constructor
  · constructor
    · decide
    · decide
  · exact C5_bollinger_band_relations ((List.range 20).map bar5) 19 (by decide) (by decide)

/-- C10: the 20-bar Bollinger deviation is the *sample* standard deviation
(squared deviations from the 20-bar mean, summed, divided by 19), while the
mid band divides by 20; both are undefined exactly on the first 19 rows. -/
theorem C10_bollinger_sample_std (bars : List Bar) (i : ℕ) (h : i < bars.length) :
    ((BB_MA20 bars).getD i none
      = if 19 ≤ i then
          some ((((List.range 20).map fun j => (closes bars).getD (i - 19 + j) 0).sum) / 20)
        else none)
  ∧ ((BB_Std bars).getD i none
      = if 19 ≤ i then
          some (Real.sqrt (((((List.range 20).map fun j =>
            ((closes bars).getD (i - 19 + j) 0
              - (((List.range 20).map fun j => (closes bars).getD (i - 19 + j) 0).sum) / 20) ^ 2).sum) / 19 : ℚ) : ℝ))
        else none) := by
  have hc : i < (closes bars).length := by simpa [closes] using h
  constructor
  · have := rollingMean_spec 20 (closes bars) i hc
    simpa [BB_MA20, show i + 1 - 20 = i - 19 by omega] using this
  · rw [BB_Std_getD bars i h]
    rw [rollingVar_spec 20 (closes bars) i hc]
    by_cases hi : 19 ≤ i
    · rw [if_pos (by omega : (20 : ℕ) - 1 ≤ i), if_pos hi]
      simp only [Option.map_some']
      norm_num [show i + 1 - 20 = i - 19 by omega]
    · rw [if_neg (by omega : ¬ (20 : ℕ) - 1 ≤ i), if_neg hi]
      rfl

/-- Witness for C10 at a concrete 20-bar series, row 19. -/
theorem C10_bollinger_sample_std_witness :
    (19 : ℕ) < ((List.range 20).map bar5).length
  ∧ (((BB_MA20 ((List.range 20).map bar5)).getD 19 none
      = if 19 ≤ 19 then
          some ((((List.range 20).map fun j =>
            (closes ((List.range 20).map bar5)).getD (19 - 19 + j) 0).sum) / 20)
        else none)
    ∧ ((BB_Std ((List.range 20).map bar5)).getD 19 none
      = if 19 ≤ 19 then
          some (Real.sqrt (((((List.range 20).map fun j =>
            ((closes ((List.range 20).map bar5)).getD (19 - 19 + j) 0
              - (((List.range 20).map fun j =>
                  (closes ((List.range 20).map bar5)).getD (19 - 19 + j) 0).sum) / 20) ^ 2).sum) / 19 : ℚ) : ℝ))
        else none)) := by
  constructor
  · decide
  · exact C10_bollinger_sample_std ((List.range 20).map bar5) 19 (by decide)

/-- IEEE-754 extended value over exact rationals: the value of a float cell
that may be `nan` or an infinity.  `df.RSI` cells live here because
`rs = avg_gain / avg_loss` divides by zero when `avg_loss = 0`. -/
inductive Xfloat where
  | nan : Xfloat
  | posInf : Xfloat
  | negInf : Xfloat
  | fin : ℚ → Xfloat
  deriving Repr, DecidableEq

/-- IEEE negation. -/
def Xfloat.neg : Xfloat → Xfloat
  | nan => nan
  | posInf => negInf
  | negInf => posInf
  | fin q => fin (-q)

/-- IEEE addition (on exact rationals; the reachable zeros are all `+0`). -/
def Xfloat.add : Xfloat → Xfloat → Xfloat
  | nan, _ => nan
  | _, nan => nan
  | posInf, negInf => nan
  | negInf, posInf => nan
  | posInf, _ => posInf
  | _, posInf => posInf
  | negInf, _ => negInf
  | _, negInf => negInf
  | fin a, fin b => fin (a + b)

/-- IEEE subtraction. -/
def Xfloat.sub (a b : Xfloat) : Xfloat := a.add b.neg

/-- IEEE division: `0/0 = nan`, `x/0 = ±inf` for `x ≠ 0`, `x/±inf = 0`
(divisor zeros are `+0`, the only zero of the exact-rational model). -/
def Xfloat.div : Xfloat → Xfloat → Xfloat
  | nan, _ => nan
  | _, nan => nan
  | posInf, posInf => nan
  | posInf, negInf => nan
  | negInf, posInf => nan
  | negInf, negInf => nan
  | posInf, fin b => if b < 0 then negInf else posInf
  | negInf, fin b => if b < 0 then posInf else negInf
  | fin _, posInf => fin 0
  | fin _, negInf => fin 0
  | fin a, fin b =>
      if b = 0 then (if a = 0 then nan else if a < 0 then negInf else posInf)
      else fin (a / b)

/-- Tail of the exponential smoothing recursion
`y_t = (1-a) * y_(t-1) + a * x_t` started from `prev`. -/
def ewmFrom (a prev : ℚ) : List ℚ → List ℚ
  | [] => []
  | x :: xs => ((1 - a) * prev + a * x) :: ewmFrom a ((1 - a) * prev + a * x) xs

/-- Embedding of `Series.ewm(alpha=a, adjust=False).mean()` (pandas): seeded with the
first value, then the recursion `y_t = (1-a) y_(t-1) + a x_t`.
`ewm(span=N, adjust=False)` is the same with `a = 2/(N+1)`. -/
def ewm (a : ℚ) : List ℚ → List ℚ
  | [] => []
  | x :: xs => x :: ewmFrom a x xs

theorem ewmFrom_length (a prev : ℚ) (xs : List ℚ) :
    (ewmFrom a prev xs).length = xs.length := by
  induction xs generalizing prev with
  | nil => rfl
  | cons x xs ih => simp [ewmFrom, ih]

theorem ewm_length (a : ℚ) (xs : List ℚ) : (ewm a xs).length = xs.length := by
  cases xs with
  | nil => rfl
  | cons x xs => simp [ewm, ewmFrom_length]

theorem ewmFrom_mem_nonneg (a prev : ℚ) (xs : List ℚ) (ha0 : 0 ≤ a)
    (ha1 : a ≤ 1) (hp : 0 ≤ prev) (hxs : ∀ x ∈ xs, 0 ≤ x) :
    ∀ y ∈ ewmFrom a prev xs, 0 ≤ y := by
  induction xs generalizing prev with
  | nil => simp [ewmFrom]
  | cons x xs ih =>
    intro y hy
    have hx : 0 ≤ x := hxs x (by simp)
    have hnext : 0 ≤ (1 - a) * prev + a * x := by nlinarith
    rw [ewmFrom] at hy
    rcases List.mem_cons.mp hy with h1 | h2
    · rw [h1]; exact hnext
    · exact ih ((1 - a) * prev + a * x) hnext (fun z hz => hxs z (by simp [hz])) y h2

theorem ewm_mem_nonneg (a : ℚ) (xs : List ℚ) (ha0 : 0 ≤ a) (ha1 : a ≤ 1)
    (hxs : ∀ x ∈ xs, 0 ≤ x) : ∀ y ∈ ewm a xs, 0 ≤ y := by
  cases xs with
  | nil => simp [ewm]
  | cons x xs =>
    intro y hy
    rw [ewm] at hy
    rcases List.mem_cons.mp hy with h1 | h2
    · rw [h1]; exact hxs x (by simp)
    · exact ewmFrom_mem_nonneg a x xs ha0 ha1 (hxs x (by simp))
        (fun z hz => hxs z (by simp [hz])) y h2

/-- Consecutive differences of a series continued from `prev`
(`Series.diff()` without its leading missing entry). -/
def diffsFrom (prev : ℚ) : List ℚ → List ℚ
  | [] => []
  | y :: ys => (y - prev) :: diffsFrom y ys

theorem diffsFrom_length (prev : ℚ) (ys : List ℚ) :
    (diffsFrom prev ys).length = ys.length := by
  induction ys generalizing prev with
  | nil => rfl
  | cons y ys ih => simp [diffsFrom, ih]

/-- Embedding of `gain = delta.where(delta > 0, 0)` (line 87) applied to
`delta = df.Close.diff()` (line 86): the leading `diff` entry is `NaN`,
for which the `where` condition is false, so the row-0 gain is `0`. -/
def gains (xs : List ℚ) : List ℚ :=
  match xs with
  | [] => []
  | x :: rest => 0 :: (diffsFrom x rest).map fun d => if 0 < d then d else 0

/-- Embedding of `loss = -delta.where(delta < 0, 0)` (line 88); the row-0 loss is `-0 = 0`. -/
def losses (xs : List ℚ) : List ℚ :=
  match xs with
  | [] => []
  | x :: rest => 0 :: (diffsFrom x rest).map fun d => if d < 0 then -d else 0

theorem gains_length (xs : List ℚ) : (gains xs).length = xs.length := by
  cases xs with
  | nil => rfl
  | cons x rest => simp [gains, diffsFrom_length]

theorem losses_length (xs : List ℚ) : (losses xs).length = xs.length := by
  cases xs with
  | nil => rfl
  | cons x rest => simp [losses, diffsFrom_length]

theorem gains_mem_nonneg (xs : List ℚ) : ∀ y ∈ gains xs, 0 ≤ y := by
  cases xs with
  | nil => simp [gains]
  | cons x rest =>
    intro y hy
    rw [gains] at hy
    rcases List.mem_cons.mp hy with h1 | h2
    · rw [h1]
    · obtain ⟨d, _, hd⟩ := List.mem_map.mp h2
      rw [← hd]
      split <;> [linarith; rfl]

theorem losses_mem_nonneg (xs : List ℚ) : ∀ y ∈ losses xs, 0 ≤ y := by
  cases xs with
  | nil => simp [losses]
  | cons x rest =>
    intro y hy
    rw [losses] at hy
    rcases List.mem_cons.mp hy with h1 | h2
    · rw [h1]
    · obtain ⟨d, _, hd⟩ := List.mem_map.mp h2
      rw [← hd]
      split <;> [linarith; rfl]

/-- Embedding of `avg_gain = gain.ewm(alpha=1/14, adjust=False).mean()` (line 89). -/
def avg_gain (bars : List Bar) : List ℚ := ewm (1/14) (gains (closes bars))

/-- Embedding of `avg_loss = loss.ewm(alpha=1/14, adjust=False).mean()` (line 90). -/
def avg_loss (bars : List Bar) : List ℚ := ewm (1/14) (losses (closes bars))

/-- Embedding of `rs = avg_gain / avg_loss` (line 91), an element-wise IEEE division. -/
def rs (bars : List Bar) : List Xfloat :=
  List.zipWith (fun g l => Xfloat.div (Xfloat.fin g) (Xfloat.fin l))
    (avg_gain bars) (avg_loss bars)

/-- The scalar map of line 92 applied to one `rs` cell. -/
def rsiStep (r : Xfloat) : Xfloat :=
  Xfloat.sub (Xfloat.fin 100) (Xfloat.div (Xfloat.fin 100) (Xfloat.add (Xfloat.fin 1) r))

/-- Embedding of `df.RSI = 100 - (100 / (1 + rs))` (line 92). -/
def RSI (bars : List Bar) : List Xfloat := (rs bars).map rsiStep

theorem getD_map_of_lt {α β : Type} (g : α → β) (xs : List α) (i : ℕ)
    (d : β) (da : α) (h : i < xs.length) :
    (xs.map g).getD i d = g (xs.getD i da) := by
  rw [List.getD_eq_getElem?_getD, List.getD_eq_getElem?_getD]
  rw [List.getElem?_map]
  rw [List.getElem?_eq_getElem h]
  rfl

theorem getD_zipWith_of_lt {α β γ : Type} (f : α → β → γ) (as : List α)
    (bs : List β) (i : ℕ) (d : γ) (da : α) (db : β)
    (ha : i < as.length) (hb : i < bs.length) :
    (List.zipWith f as bs).getD i d = f (as.getD i da) (bs.getD i db) := by
  rw [List.getD_eq_getElem?_getD, List.getD_eq_getElem?_getD, List.getD_eq_getElem?_getD]
  rw [List.getElem?_zipWith]
  rw [List.getElem?_eq_getElem ha, List.getElem?_eq_getElem hb]
  rfl

theorem getD_mem {α : Type} (xs : List α) (i : ℕ) (d : α) (h : i < xs.length) :
    xs.getD i d ∈ xs := by
  rw [List.getD_eq_getElem?_getD, List.getElem?_eq_getElem h]
  exact List.getElem_mem h

theorem avg_gain_length (bars : List Bar) : (avg_gain bars).length = bars.length := by
  simp [avg_gain, ewm_length, gains_length, closes]

theorem avg_loss_length (bars : List Bar) : (avg_loss bars).length = bars.length := by
  simp [avg_loss, ewm_length, losses_length, closes]

theorem RSI_length (bars : List Bar) : (RSI bars).length = bars.length := by
  simp [RSI, rs, avg_gain_length, avg_loss_length]

theorem avg_gain_getD_nonneg (bars : List Bar) (i : ℕ) (h : i < bars.length) :
    0 ≤ (avg_gain bars).getD i 0 := by
  have hlen : i < (avg_gain bars).length := by rw [avg_gain_length]; exact h
  exact ewm_mem_nonneg (1/14) (gains (closes bars)) (by norm_num) (by norm_num)
    (gains_mem_nonneg (closes bars)) _ (getD_mem _ i 0 hlen)

theorem avg_loss_getD_nonneg (bars : List Bar) (i : ℕ) (h : i < bars.length) :
    0 ≤ (avg_loss bars).getD i 0 := by
  have hlen : i < (avg_loss bars).length := by rw [avg_loss_length]; exact h
  exact ewm_mem_nonneg (1/14) (losses (closes bars)) (by norm_num) (by norm_num)
    (losses_mem_nonneg (closes bars)) _ (getD_mem _ i 0 hlen)

/-- The RSI cell at a valid row, in terms of the two smoothed averages. -/
theorem RSI_getD (bars : List Bar) (i : ℕ) (h : i < bars.length) :
    (RSI bars).getD i Xfloat.nan
      = rsiStep (Xfloat.div (Xfloat.fin ((avg_gain bars).getD i 0))
          (Xfloat.fin ((avg_loss bars).getD i 0))) := by
  have hrs : i < (rs bars).length := by
    simp [rs, avg_gain_length, avg_loss_length, h]
  rw [RSI, getD_map_of_lt rsiStep (rs bars) i Xfloat.nan Xfloat.nan hrs]
  rw [rs, getD_zipWith_of_lt _ (avg_gain bars) (avg_loss bars) i Xfloat.nan 0 0
    (by rw [avg_gain_length]; exact h) (by rw [avg_loss_length]; exact h)]

/-- Behaviour of the line 92 formula on one cell, for nonnegative smoothed
averages: `nan` exactly when both are zero, a finite value in `[0, 100]`
otherwise, and exactly `100` when the loss average alone is zero. -/
theorem rsiStep_div_cases (g l : ℚ) (hg : 0 ≤ g) (hl : 0 ≤ l) :
    (g = 0 ∧ l = 0 → rsiStep (Xfloat.div (Xfloat.fin g) (Xfloat.fin l)) = Xfloat.nan)
  ∧ (¬ (g = 0 ∧ l = 0) → ∃ q, rsiStep (Xfloat.div (Xfloat.fin g) (Xfloat.fin l)) = Xfloat.fin q
        ∧ 0 ≤ q ∧ q ≤ 100)
  ∧ (l = 0 → g ≠ 0 → rsiStep (Xfloat.div (Xfloat.fin g) (Xfloat.fin l)) = Xfloat.fin 100) := by
  by_cases hl0 : l = 0
  · subst hl0
    by_cases hg0 : g = 0
    · subst hg0
      refine ⟨fun _ => ?_, fun hne => absurd ⟨rfl, rfl⟩ hne, fun _ hne => absurd rfl hne⟩
      simp [rsiStep, Xfloat.div, Xfloat.add, Xfloat.sub, Xfloat.neg]
    · have hgpos : 0 < g := lt_of_le_of_ne hg (Ne.symm hg0)
      have hstep : rsiStep (Xfloat.div (Xfloat.fin g) (Xfloat.fin 0)) = Xfloat.fin 100 := by
        simp [rsiStep, Xfloat.div, Xfloat.add, Xfloat.sub, Xfloat.neg, hg0, not_lt.mpr hg]
      exact ⟨fun hz => absurd hz.1 hg0,
        fun _ => ⟨100, hstep, by norm_num, le_refl 100⟩,
        fun _ _ => hstep⟩
  · have hlpos : 0 < l := lt_of_le_of_ne hl (Ne.symm hl0)
    have hq0 : 0 ≤ g / l := div_nonneg hg hl
    have hd : (0 : ℚ) < 1 + g / l := by linarith
    have hstep : rsiStep (Xfloat.div (Xfloat.fin g) (Xfloat.fin l))
        = Xfloat.fin (100 - 100 / (1 + g / l)) := by
      simp only [rsiStep, Xfloat.div, Xfloat.add, Xfloat.sub, Xfloat.neg,
        if_neg hl0, if_neg hd.ne']
      rw [sub_eq_add_neg]
    refine ⟨fun hz => absurd hz.2 hl0, fun _ => ⟨100 - 100 / (1 + g / l), hstep, ?_, ?_⟩,
      fun hl' => absurd hl' hl0⟩
    · have h1 : 100 / (1 + g / l) ≤ 100 := div_le_self (by norm_num) (by linarith)
      linarith
    · have h2 : 0 ≤ 100 / (1 + g / l) := by positivity
      linarith

/-- C1 (amended): at every row where the 14-period smoothed average loss is
exactly zero while the smoothed average gain is nonzero, the RSI equals
exactly 100 (the IEEE division produces `+inf`, and `100 - 100/(1+inf)`
collapses to `100`); in particular, for any two-row input with a positive
close-to-close delta, the RSI of the second row is exactly 100.  (When both
averages are zero the division is `0/0` and the RSI cell is `nan`, so the
original claim, that NaN never propagates, fails; see the counterexample.) -/
theorem C1_rsi_avg_loss_zero (bars : List Bar) (i : ℕ) (h : i < bars.length)
    (hl : (avg_loss bars).getD i 0 = 0) (hg : (avg_gain bars).getD i 0 ≠ 0) :
    (RSI bars).getD i Xfloat.nan = Xfloat.fin 100
  ∧ ∀ a b : Bar, a.close < b.close → (RSI [a, b]).getD 1 Xfloat.nan = Xfloat.fin 100 := by
  constructor
  · rw [RSI_getD bars i h]
    exact (rsiStep_div_cases _ _ (avg_gain_getD_nonneg bars i h)
      (avg_loss_getD_nonneg bars i h)).2.2 hl hg
  · intro a b hab
    have hd : (0 : ℚ) < b.close - a.close := sub_pos.mpr hab
    have h2 : (1 : ℕ) < ([a, b] : List Bar).length := by simp
    rw [RSI_getD [a, b] 1 h2]
    have hgv : (avg_gain [a, b]).getD 1 0 = (1/14) * (b.close - a.close) := by
      simp [avg_gain, gains, closes, diffsFrom, ewm, ewmFrom]
      intro hba
      linarith
    have hlv : (avg_loss [a, b]).getD 1 0 = 0 := by
      simp [avg_loss, losses, closes, diffsFrom, ewm, ewmFrom]
      intro hba
      linarith
    rw [hgv, hlv]
    exact (rsiStep_div_cases _ _ (by positivity) (le_refl 0)).2.2 rfl (by positivity)

/-- Witness for C1 on a concrete two-bar rising series, row 1. -/
theorem C1_rsi_avg_loss_zero_witness :
    ((1 : ℕ) < ([wbar 0 0, wbar 1 1] : List Bar).length
      ∧ (avg_loss [wbar 0 0, wbar 1 1]).getD 1 0 = 0
      ∧ (avg_gain [wbar 0 0, wbar 1 1]).getD 1 0 ≠ 0)
  ∧ ((RSI [wbar 0 0, wbar 1 1]).getD 1 Xfloat.nan = Xfloat.fin 100
    ∧ ∀ a b : Bar, a.close < b.close →
        (RSI [a, b]).getD 1 Xfloat.nan = Xfloat.fin 100) := by
  constructor
  · refine ⟨by decide, ?_, ?_⟩
    · simp [avg_loss, losses, closes, diffsFrom, ewm, ewmFrom, wbar]
    · simp [avg_gain, gains, closes, diffsFrom, ewm, ewmFrom, wbar]
  · exact C1_rsi_avg_loss_zero [wbar 0 0, wbar 1 1] 1 (by decide)
      (by simp [avg_loss, losses, closes, diffsFrom, ewm, ewmFrom, wbar])
      (by simp [avg_gain, gains, closes, diffsFrom, ewm, ewmFrom, wbar])

/-- Counterexample to C1 as stated: on a one-row series the smoothed average
loss at row 0 is exactly zero, yet the RSI cell is `nan` (from `rs = 0/0`),
not 100 — the zero-division is not handled explicitly and does propagate as
a not-a-number value. -/
theorem C1_rsi_avg_loss_zero_counterexample :
    (RSI [wbar 0 1]).length = 1
  ∧ (avg_loss [wbar 0 1]).getD 0 1 = 0
  ∧ (RSI [wbar 0 1]).getD 0 (Xfloat.fin 0) = Xfloat.nan
  ∧ (RSI [wbar 0 1]).getD 0 (Xfloat.fin 0) ≠ Xfloat.fin 100 := by
  refine ⟨?_, ?_, ?_, ?_⟩ <;>
    simp [RSI, rs, avg_gain, avg_loss, gains, losses, closes, diffsFrom, ewm,
      ewmFrom, rsiStep, Xfloat.div, Xfloat.add, Xfloat.sub, Xfloat.neg, wbar]

/-- C2 (amended): every RSI cell at a valid row is either `nan` — which
happens exactly when the smoothed average gain and loss are both exactly
zero, in particular always at row 0 — or a finite value within `[0, 100]`;
the column spans the whole series.  (The original claim, defined at every
row from the first bar onward, fails at row 0; see the counterexample.) -/
theorem C2_rsi_bounds (bars : List Bar) (i : ℕ) (h : i < bars.length) :
    (RSI bars).length = bars.length
  ∧ ((RSI bars).getD i Xfloat.nan = Xfloat.nan
      ↔ ((avg_gain bars).getD i 0 = 0 ∧ (avg_loss bars).getD i 0 = 0))
  ∧ ((RSI bars).getD i Xfloat.nan = Xfloat.nan
      ∨ ∃ q, (RSI bars).getD i Xfloat.nan = Xfloat.fin q ∧ 0 ≤ q ∧ q ≤ 100) := by
  have hentry := RSI_getD bars i h
  obtain ⟨cnan, cfin, _⟩ := rsiStep_div_cases ((avg_gain bars).getD i 0)
    ((avg_loss bars).getD i 0) (avg_gain_getD_nonneg bars i h) (avg_loss_getD_nonneg bars i h)
  refine ⟨RSI_length bars, ?_, ?_⟩
  · constructor
    · intro hnan
      by_contra hne
      obtain ⟨q, hq, _, _⟩ := cfin hne
      rw [hentry, hq] at hnan
      exact Xfloat.noConfusion hnan
    · intro hz
      rw [hentry]
      exact cnan hz
  · by_cases hz : (avg_gain bars).getD i 0 = 0 ∧ (avg_loss bars).getD i 0 = 0
    · exact Or.inl (by rw [hentry]; exact cnan hz)
    · obtain ⟨q, hq, hq0, hq100⟩ := cfin hz
      exact Or.inr ⟨q, by rw [hentry]; exact hq, hq0, hq100⟩

/-- Witness for C2 on a concrete two-bar rising series, row 1. -/
theorem C2_rsi_bounds_witness :
    (1 : ℕ) < ([wbar 0 0, wbar 1 1] : List Bar).length
  ∧ ((RSI [wbar 0 0, wbar 1 1]).length = ([wbar 0 0, wbar 1 1] : List Bar).length
    ∧ ((RSI [wbar 0 0, wbar 1 1]).getD 1 Xfloat.nan = Xfloat.nan
        ↔ ((avg_gain [wbar 0 0, wbar 1 1]).getD 1 0 = 0
            ∧ (avg_loss [wbar 0 0, wbar 1 1]).getD 1 0 = 0))
    ∧ ((RSI [wbar 0 0, wbar 1 1]).getD 1 Xfloat.nan = Xfloat.nan
        ∨ ∃ q, (RSI [wbar 0 0, wbar 1 1]).getD 1 Xfloat.nan = Xfloat.fin q
            ∧ 0 ≤ q ∧ q ≤ 100)) := by
  constructor
  · decide
  · exact C2_rsi_bounds [wbar 0 0, wbar 1 1] 1 (by decide)

/-- Counterexample to C2 as stated: the one-row series is non-empty, yet its
RSI cell at row 0 is `nan` — the column is not defined from the first bar
onward. -/
theorem C2_rsi_bounds_counterexample :
    ([wbar 0 1] : List Bar) ≠ []
  ∧ (RSI [wbar 0 1]).length = 1
  ∧ (RSI [wbar 0 1]).getD 0 (Xfloat.fin 50) = Xfloat.nan := by
  refine ⟨by simp, ?_, ?_⟩ <;>
    simp [RSI, rs, avg_gain, avg_loss, gains, losses, closes, diffsFrom, ewm,
      ewmFrom, rsiStep, Xfloat.div, Xfloat.add, Xfloat.sub, Xfloat.neg, wbar]

/-- C4: each moving-average column (`MA5`, `MA25`, `MA75` over close,
`Volume_MA20` over volume) is, at every index `i` of the fetched series,
the arithmetic mean of exactly the `w` consecutive input values at indices
`i-w+1 … i`, and is undefined for every `i < w-1`. -/
theorem C4_moving_averages (bars : List Bar) (i : ℕ) (h : i < bars.length) :
    ((MA5 bars).getD i none
      = if 4 ≤ i then
          some ((((List.range 5).map fun j => (closes bars).getD (i - 4 + j) 0).sum) / 5)
        else none)
  ∧ ((MA25 bars).getD i none
      = if 24 ≤ i then
          some ((((List.range 25).map fun j => (closes bars).getD (i - 24 + j) 0).sum) / 25)
        else none)
  ∧ ((MA75 bars).getD i none
      = if 74 ≤ i then
          some ((((List.range 75).map fun j => (closes bars).getD (i - 74 + j) 0).sum) / 75)
        else none)
  ∧ ((Volume_MA20 bars).getD i none
      = if 19 ≤ i then
          some ((((List.range 20).map fun j => (volumes bars).getD (i - 19 + j) 0).sum) / 20)
        else none) := by
  have hc : i < (closes bars).length := by simpa [closes] using h
  have hv : i < (volumes bars).length := by simpa [volumes] using h
  refine ⟨?_, ?_, ?_, ?_⟩
  · have := rollingMean_spec 5 (closes bars) i hc
    simpa [MA5, show i + 1 - 5 = i - 4 by omega] using this
  · have := rollingMean_spec 25 (closes bars) i hc
    simpa [MA25, show i + 1 - 25 = i - 24 by omega] using this
  · have := rollingMean_spec 75 (closes bars) i hc
    simpa [MA75, show i + 1 - 75 = i - 74 by omega] using this
  · have := rollingMean_spec 20 (volumes bars) i hv
    simpa [Volume_MA20, show i + 1 - 20 = i - 19 by omega] using this

/-- Witness for C4 at a concrete five-bar series and index 4: `MA5` equals
the mean of the five closes, the longer windows are undefined. -/
theorem C4_moving_averages_witness :
    (4 : ℕ) < ((List.range 5).map bar5).length
  ∧ ((MA5 ((List.range 5).map bar5)).getD 4 none
      = if 4 ≤ 4 then
          some ((((List.range 5).map fun j =>
            (closes ((List.range 5).map bar5)).getD (4 - 4 + j) 0).sum) / 5)
        else none)
  ∧ ((MA25 ((List.range 5).map bar5)).getD 4 none
      = if 24 ≤ 4 then
          some ((((List.range 25).map fun j =>
            (closes ((List.range 5).map bar5)).getD (4 - 24 + j) 0).sum) / 25)
        else none)
  ∧ ((MA75 ((List.range 5).map bar5)).getD 4 none
      = if 74 ≤ 4 then
          some ((((List.range 75).map fun j =>
            (closes ((List.range 5).map bar5)).getD (4 - 74 + j) 0).sum) / 75)
        else none)
  ∧ ((Volume_MA20 ((List.range 5).map bar5)).getD 4 none
      = if 19 ≤ 4 then
          some ((((List.range 20).map fun j =>
            (volumes ((List.range 5).map bar5)).getD (4 - 19 + j) 0).sum) / 20)
        else none) :=
  ⟨by decide, C4_moving_averages ((List.range 5).map bar5) 4 (by decide)⟩

theorem ewm_getD_zero (a : ℚ) (xs : List ℚ) (h : 0 < xs.length) :
    (ewm a xs).getD 0 0 = xs.getD 0 0 := by
  cases xs with
  | nil => simp at h
  | cons x xs => rfl

theorem ewmFrom_getD_succ (a p : ℚ) (xs : List ℚ) (j : ℕ) (h : j + 1 < xs.length) :
    (ewmFrom a p xs).getD (j + 1) 0
      = (1 - a) * (ewmFrom a p xs).getD j 0 + a * xs.getD (j + 1) 0 := by
  induction xs generalizing p j with
  | nil => simp at h
  | cons x xs ih =>
    cases j with
    | zero =>
      cases xs with
      | nil => simp at h
      | cons z zs => simp [ewmFrom]
    | succ j2 =>
      have hlen : j2 + 1 < xs.length := by
        simpa using h
      simp only [ewmFrom, List.getD_cons_succ]
      exact ih ((1 - a) * p + a * x) j2 hlen

theorem ewm_getD_succ (a : ℚ) (xs : List ℚ) (j : ℕ) (h : j + 1 < xs.length) :
    (ewm a xs).getD (j + 1) 0
      = (1 - a) * (ewm a xs).getD j 0 + a * xs.getD (j + 1) 0 := by
  cases xs with
  | nil => simp at h
  | cons x xs =>
    cases j with
    | zero =>
      cases xs with
      | nil => simp at h
      | cons z zs => simp [ewm, ewmFrom]
    | succ j2 =>
      simp only [ewm, List.getD_cons_succ]
      exact ewmFrom_getD_succ a x xs j2 (by simpa using h)

/-- Embedding of `exp12 = df.Close.ewm(span=12, adjust=False).mean()` (line 95):
the seeded recursion with `alpha = 2/(12+1)`. -/
def exp12 (bars : List Bar) : List ℚ := ewm (2/13) (closes bars)

/-- Embedding of `exp26 = df.Close.ewm(span=26, adjust=False).mean()` (line 96):
`alpha = 2/(26+1)`. -/
def exp26 (bars : List Bar) : List ℚ := ewm (2/27) (closes bars)

/-- Embedding of `df.MACD = exp12 - exp26` (line 97). -/
def MACD (bars : List Bar) : List ℚ :=
  List.zipWith (fun a b => a - b) (exp12 bars) (exp26 bars)

/-- Embedding of `df.Signal = df.MACD.ewm(span=9, adjust=False).mean()` (line 98):
`alpha = 2/(9+1)`, seeded with the first MACD value. -/
def Signal (bars : List Bar) : List ℚ := ewm (2/10) (MACD bars)

/-- Embedding of `df.MACD_Hist = df.MACD - df.Signal` (line 99). -/
def MACD_Hist (bars : List Bar) : List ℚ :=
  List.zipWith (fun a b => a - b) (MACD bars) (Signal bars)

theorem closes_length (bars : List Bar) : (closes bars).length = bars.length := by
  simp [closes]

theorem exp12_length (bars : List Bar) : (exp12 bars).length = bars.length := by
  simp [exp12, ewm_length, closes_length]

theorem exp26_length (bars : List Bar) : (exp26 bars).length = bars.length := by
  simp [exp26, ewm_length, closes_length]

theorem MACD_length (bars : List Bar) : (MACD bars).length = bars.length := by
  simp [MACD, exp12_length, exp26_length]

theorem Signal_length (bars : List Bar) : (Signal bars).length = bars.length := by
  simp [Signal, ewm_length, MACD_length]

theorem MACD_Hist_length (bars : List Bar) : (MACD_Hist bars).length = bars.length := by
  simp [MACD_Hist, MACD_length, Signal_length]

/-- C6: the MACD family is total over the whole series (same length as the
input — no fixed-window warm-up gap), each EMA is the seeded recursion
`avg = a * value + (1 - a) * avg_prev` with `a = 2/(N+1)` seeded with its
first input value (`Signal` with the first MACD value), `MACD` is
`exp12 - exp26`, and `MACD_Hist = MACD - Signal` exactly at every row. -/
theorem C6_macd_ema (bars : List Bar) (i j : ℕ) (h : i < bars.length)
    (hj : j + 1 < bars.length) :
    (MACD bars).length = bars.length
  ∧ (Signal bars).length = bars.length
  ∧ (MACD_Hist bars).length = bars.length
  ∧ (MACD bars).getD i 0 = (exp12 bars).getD i 0 - (exp26 bars).getD i 0
  ∧ (MACD_Hist bars).getD i 0 = (MACD bars).getD i 0 - (Signal bars).getD i 0
  ∧ (exp12 bars).getD 0 0 = (closes bars).getD 0 0
  ∧ (exp26 bars).getD 0 0 = (closes bars).getD 0 0
  ∧ (Signal bars).getD 0 0 = (MACD bars).getD 0 0
  ∧ (exp12 bars).getD (j + 1) 0
      = (1 - 2/13) * (exp12 bars).getD j 0 + (2/13) * (closes bars).getD (j + 1) 0
  ∧ (exp26 bars).getD (j + 1) 0
      = (1 - 2/27) * (exp26 bars).getD j 0 + (2/27) * (closes bars).getD (j + 1) 0
  ∧ (Signal bars).getD (j + 1) 0
      = (1 - 2/10) * (Signal bars).getD j 0 + (2/10) * (MACD bars).getD (j + 1) 0 := by
  have h0 : 0 < bars.length := Nat.lt_of_le_of_lt (Nat.zero_le i) h
  have hc0 : 0 < (closes bars).length := by rw [closes_length]; exact h0
  have hm0 : 0 < (MACD bars).length := by rw [MACD_length]; exact h0
  refine ⟨MACD_length bars, Signal_length bars, MACD_Hist_length bars, ?_, ?_, ?_, ?_, ?_, ?_, ?_, ?_⟩
  · rw [MACD]
    exact getD_zipWith_of_lt _ (exp12 bars) (exp26 bars) i 0 0 0
      (by rw [exp12_length]; exact h) (by rw [exp26_length]; exact h)
  · rw [MACD_Hist]
    exact getD_zipWith_of_lt _ (MACD bars) (Signal bars) i 0 0 0
      (by rw [MACD_length]; exact h) (by rw [Signal_length]; exact h)
  · exact ewm_getD_zero (2/13) (closes bars) hc0
  · exact ewm_getD_zero (2/27) (closes bars) hc0
  · exact ewm_getD_zero (2/10) (MACD bars) hm0
  · exact ewm_getD_succ (2/13) (closes bars) j (by rw [closes_length]; exact hj)
  · exact ewm_getD_succ (2/27) (closes bars) j (by rw [closes_length]; exact hj)
  · exact ewm_getD_succ (2/10) (MACD bars) j (by rw [MACD_length]; exact hj)

/-- Witness for C6 on a concrete two-bar series, rows 0 and 1. -/
theorem C6_macd_ema_witness :
    ((0 : ℕ) < ([wbar 0 0, wbar 1 1] : List Bar).length
      ∧ (0 : ℕ) + 1 < ([wbar 0 0, wbar 1 1] : List Bar).length)
  ∧ ((MACD [wbar 0 0, wbar 1 1]).length = ([wbar 0 0, wbar 1 1] : List Bar).length
    ∧ (Signal [wbar 0 0, wbar 1 1]).length = ([wbar 0 0, wbar 1 1] : List Bar).length
    ∧ (MACD_Hist [wbar 0 0, wbar 1 1]).length = ([wbar 0 0, wbar 1 1] : List Bar).length
    ∧ (MACD [wbar 0 0, wbar 1 1]).getD 0 0
        = (exp12 [wbar 0 0, wbar 1 1]).getD 0 0 - (exp26 [wbar 0 0, wbar 1 1]).getD 0 0
    ∧ (MACD_Hist [wbar 0 0, wbar 1 1]).getD 0 0
        = (MACD [wbar 0 0, wbar 1 1]).getD 0 0 - (Signal [wbar 0 0, wbar 1 1]).getD 0 0
    ∧ (exp12 [wbar 0 0, wbar 1 1]).getD 0 0 = (closes [wbar 0 0, wbar 1 1]).getD 0 0
    ∧ (exp26 [wbar 0 0, wbar 1 1]).getD 0 0 = (closes [wbar 0 0, wbar 1 1]).getD 0 0
    ∧ (Signal [wbar 0 0, wbar 1 1]).getD 0 0 = (MACD [wbar 0 0, wbar 1 1]).getD 0 0
    ∧ (exp12 [wbar 0 0, wbar 1 1]).getD (0 + 1) 0
        = (1 - 2/13) * (exp12 [wbar 0 0, wbar 1 1]).getD 0 0
          + (2/13) * (closes [wbar 0 0, wbar 1 1]).getD (0 + 1) 0
    ∧ (exp26 [wbar 0 0, wbar 1 1]).getD (0 + 1) 0
        = (1 - 2/27) * (exp26 [wbar 0 0, wbar 1 1]).getD 0 0
          + (2/27) * (closes [wbar 0 0, wbar 1 1]).getD (0 + 1) 0
    ∧ (Signal [wbar 0 0, wbar 1 1]).getD (0 + 1) 0
        = (1 - 2/10) * (Signal [wbar 0 0, wbar 1 1]).getD 0 0
          + (2/10) * (MACD [wbar 0 0, wbar 1 1]).getD (0 + 1) 0) := by
  constructor
  · exact ⟨by decide, by decide⟩
  · exact C6_macd_ema [wbar 0 0, wbar 1 1] 0 0 (by decide) (by decide)

/-- One row of the enriched table `df` after lines 57-99: the OHLCV input
columns plus every derived indicator column. -/
structure IndicatorRow where
  date : Int
  open_ : ℚ
  high : ℚ
  low : ℚ
  close : ℚ
  volume : ℚ
  MA5 : Option ℚ
  MA25 : Option ℚ
  MA75 : Option ℚ
  Volume_MA20 : Option ℚ
  BB_MA20 : Option ℚ
  BB_Std : Option ℝ
  BB_Upper : Option ℝ
  BB_Lower : Option ℝ
  SpanA : Option ℚ
  SpanB : Option ℚ
  RSI : Xfloat
  MACD : ℚ
  Signal : ℚ
  MACD_Hist : ℚ

/-- The enriched table over the full fetched range: the input series with
all indicator columns attached row by row (lines 57-99). -/
noncomputable def buildTable (bars : List Bar) : List IndicatorRow :=
  (List.range bars.length).map fun i =>
    { date := (bars.getD i default).date
      open_ := (bars.getD i default).open_
      high := (bars.getD i default).high
      low := (bars.getD i default).low
      close := (bars.getD i default).close
      volume := (bars.getD i default).volume
      MA5 := (MA5 bars).getD i none
      MA25 := (MA25 bars).getD i none
      MA75 := (MA75 bars).getD i none
      Volume_MA20 := (Volume_MA20 bars).getD i none
      BB_MA20 := (BB_MA20 bars).getD i none
      BB_Std := (BB_Std bars).getD i none
      BB_Upper := (BB_Upper bars).getD i none
      BB_Lower := (BB_Lower bars).getD i none
      SpanA := (SpanA bars).getD i none
      SpanB := (SpanB bars).getD i none
      RSI := (RSI bars).getD i Xfloat.nan
      MACD := (MACD bars).getD i 0
      Signal := (Signal bars).getD i 0
      MACD_Hist := (MACD_Hist bars).getD i 0 }

/-- Embedding of `df_display = df[df.index >= pd.to_datetime(display_start)]`
(line 102): keep exactly the rows dated at or after the display start. -/
def trimTable (displayStart : Int) (t : List IndicatorRow) : List IndicatorRow :=
  t.filter fun r => displayStart ≤ r.date

/-- The indicator-computation core of `load_and_process_data` (lines 36-103)
from the fetched series on: short-circuit on an empty fetch (lines 54-55),
otherwise compute all indicator columns and trim to the display window. -/
noncomputable def load_and_process_data (bars : List Bar) (displayStart : Int) :
    List IndicatorRow :=
  if bars.isEmpty then [] else trimTable displayStart (buildTable bars)

/-- C7: the display-window trimmer returns exactly the rows dated at or
after the display start, as a sublist of the table (original order, rows —
hence every computed column value — unmodified); on a date-sorted table it
is precisely the table with the rows dated before the display start
dropped from the front. -/
theorem C7_display_window_trim (displayStart : Int) (t : List IndicatorRow)
    (hsort : t.Pairwise fun a b => a.date < b.date) :
    (trimTable displayStart t).Sublist t
  ∧ (∀ r ∈ t, (r ∈ trimTable displayStart t ↔ displayStart ≤ r.date))
  ∧ trimTable displayStart t
      = t.drop (t.countP fun r => decide (r.date < displayStart)) := by
  refine ⟨List.filter_sublist _, ?_, ?_⟩
  · intro r hr
    constructor
    · intro hmem
      rw [trimTable] at hmem
      exact of_decide_eq_true ((List.mem_filter.mp hmem).2)
    · intro hdate
      rw [trimTable]
      exact List.mem_filter.mpr ⟨hr, decide_eq_true hdate⟩
  · induction t with
    | nil => rfl
    | cons r rest ih =>
      have hall : ∀ x ∈ rest, r.date < x.date := (List.pairwise_cons.mp hsort).1
      have hrest : rest.Pairwise fun a b => a.date < b.date :=
        (List.pairwise_cons.mp hsort).2
      by_cases hr : displayStart ≤ r.date
      · have hcount : ((r :: rest).countP fun x => decide (x.date < displayStart)) = 0 := by
          rw [List.countP_eq_zero]
          intro x hx
          simp only [decide_eq_true_eq]
          rcases List.mem_cons.mp hx with h1 | h2
          · rw [h1]; omega
          · have := hall x h2; omega
        rw [hcount, List.drop_zero, trimTable, List.filter_eq_self]
        intro x hx
        rcases List.mem_cons.mp hx with h1 | h2
        · rw [h1]; exact decide_eq_true hr
        · have := hall x h2
          exact decide_eq_true (by omega)
      · have hcount : ((r :: rest).countP fun x => decide (x.date < displayStart))
            = (rest.countP fun x => decide (x.date < displayStart)) + 1 := by
          rw [List.countP_cons_of_pos]
          exact decide_eq_true (by omega)
        rw [hcount, List.drop_succ_cons, trimTable, List.filter_cons_of_neg]
        · exact ih hrest
        · simpa using hr

/-- A fully blank table row with a given date, for the C7 witness. -/
def wrow (n : ℕ) : IndicatorRow :=
  { date := n, open_ := 0, high := 0, low := 0, close := 0, volume := 0
    MA5 := none, MA25 := none, MA75 := none, Volume_MA20 := none
    BB_MA20 := none, BB_Std := none, BB_Upper := none, BB_Lower := none
    SpanA := none, SpanB := none, RSI := Xfloat.nan
    MACD := 0, Signal := 0, MACD_Hist := 0 }

/-- Witness for C7: a 50-row table with dates `0..49` trimmed at date 40
returns exactly the last ten rows, 40 to 49. -/
theorem C7_display_window_trim_witness :
    ((((List.range 50).map wrow).Pairwise fun a b => a.date < b.date)
      ∧ trimTable 40 ((List.range 50).map wrow) = ((List.range 50).map wrow).drop 40)
  ∧ ((trimTable 40 ((List.range 50).map wrow)).Sublist ((List.range 50).map wrow)
    ∧ (∀ r ∈ (List.range 50).map wrow,
        (r ∈ trimTable 40 ((List.range 50).map wrow) ↔ 40 ≤ r.date))
    ∧ trimTable 40 ((List.range 50).map wrow)
        = ((List.range 50).map wrow).drop
            (((List.range 50).map wrow).countP fun r => decide (r.date < 40))) := by
  constructor
  · exact ⟨by decide, by rfl⟩
  · exact C7_display_window_trim 40 ((List.range 50).map wrow) (by decide)

/-- C8: a zero-row fetched series short-circuits (line 54-55): for every
display start the core returns the explicit empty table, with no indicator
column computed over the empty sequence. -/
theorem C8_empty_input (bars : List Bar) (displayStart : Int) (h : bars = []) :
    load_and_process_data bars displayStart = [] := by
  rw [h]
  rfl

/-- Witness for C8 at the empty series and display start 0. -/
theorem C8_empty_input_witness :
    (([] : List Bar) = []) ∧ load_and_process_data [] 0 = [] :=
  ⟨rfl, C8_empty_input [] 0 rfl⟩

/-- C9: the core is deterministic — two runs over the same input series and
display start yield bit-for-bit identical output tables (the embedded
computation is a pure function of its input). -/
theorem C9_deterministic (bars1 bars2 : List Bar) (displayStart : Int)
    (h : bars1 = bars2) :
    load_and_process_data bars1 displayStart = load_and_process_data bars2 displayStart := by
  rw [h]

/-- Witness for C9 on a concrete two-bar series. -/
theorem C9_deterministic_witness :
    (([wbar 0 0, wbar 1 1] : List Bar) = [wbar 0 0, wbar 1 1])
  ∧ load_and_process_data [wbar 0 0, wbar 1 1] 0
      = load_and_process_data [wbar 0 0, wbar 1 1] 0 :=
  ⟨rfl, C9_deterministic [wbar 0 0, wbar 1 1] [wbar 0 0, wbar 1 1] 0 rfl⟩

end StockViewer
